import Mathlib

/-!
Verification of the camilladsp processing core against its source.

The embedding covers:
* the coordinator status loop of `run` in `src/main.rs`;
* the file playback worker loop of `FilePlaybackDevice::start` in
  `src/filedevice.rs`;
* the capture loop (`capture_loop`, `send_silence`, `read_retry`) of
  `src/filedevice.rs`;
* `FilterGroup::process_chunk` of `src/filters.rs`.

The engine's sample type `PrcFmt` (an `f64` in the source) is modelled by `ℚ`:
every property proved here is about the order structure and the exact zero
values that the code manipulates, never about rounding.  Machine sizes
(`usize`) are modelled by `Nat`; none of the modelled code paths can overflow
or underflow (`usize` subtractions in the source are guarded).  Fallible
operations are modelled with `Except`/`Option`.
-/

/-- Model of the sample type `PrcFmt = f64` of `main.rs`. -/
abbrev PrcFmt := ℚ

/-- Model of `AudioChunk` from `audiodevice.rs` (an external collaborator of
the three sources; its fields are fixed by the spec's data model, section 3). -/
structure AudioChunk where
  frames : Nat
  valid_frames : Nat
  waveforms : List (List PrcFmt)
  maxval : PrcFmt
  minval : PrcFmt
  deriving DecidableEq

/-- Modelled from the spec: `AudioChunk::new` of `audiodevice.rs` is not under
`src/`; the spec (section 3) fixes `frames` as the declared length of each
waveform, and construction stores the given extreme values and valid count.
The call site in `send_silence` passes both extreme values as `0.0`, so the
order of the two `PrcFmt` arguments is irrelevant to every claim below. -/
def AudioChunk.new (waveforms : List (List PrcFmt)) (maxval minval : PrcFmt)
    (valid_frames : Nat) : AudioChunk :=
  { frames := (waveforms.headD []).length, valid_frames, waveforms, maxval, minval }

/-- Model of `AudioMessage` from `audiodevice.rs`, as fixed by the spec's data
model (section 3): a tagged union of an audio chunk and an end-of-stream mark. -/
inductive AudioMessage where
  | audio (chunk : AudioChunk)
  | endOfStream
  deriving DecidableEq

/-- Model of `StatusMessage` from `main.rs` (lines 35-42). -/
inductive StatusMessage where
  | playbackReady
  | captureReady
  | playbackError (message : String)
  | captureError (message : String)
  | playbackDone
  | captureDone
  deriving DecidableEq

/-- Model of `CommandMessage` (declared in the missing `audiodevice.rs`, used
by `capture_loop`): a shutdown signal or a resampling-speed adjustment. -/
inductive CommandMessage where
  | exit
  | setSpeed (speed : PrcFmt)
  deriving DecidableEq

/-! ## Coordinator status loop (`run`, `src/main.rs` lines 92-128) -/

/-- The two readiness flags of the coordinator loop in `run`
(`pb_ready` and `cap_ready`, `main.rs` lines 92-93). -/
structure CoordState where
  pb_ready : Bool
  cap_ready : Bool
  deriving DecidableEq

/-- Effect of the coordinator processing one status message: the updated
flags, the number of `barrier.wait()` calls performed while handling it, what
it printed, and the loop's return value if this message ends the loop. -/
structure CoordStepOut where
  state : CoordState
  waits : Nat
  logs : List String
  result : Option (Except String Unit)

/-- One arm of the `match` in the coordinator's status loop
(`src/main.rs` lines 96-124).  On `PlaybackError`, `CaptureError` and
`PlaybackDone` the source prints a line and executes `return Ok(())`. -/
def coordStep (s : CoordState) (m : StatusMessage) : CoordStepOut :=
  match m with
  | .playbackReady => ⟨⟨true, s.cap_ready⟩, if s.cap_ready then 1 else 0, [], none⟩
  | .captureReady => ⟨⟨s.pb_ready, true⟩, if s.pb_ready then 1 else 0, [], none⟩
  | .playbackError message =>
      ⟨s, 0, ["Playback error: " ++ message], some (Except.ok ())⟩
  | .captureError message =>
      ⟨s, 0, ["Capture error: " ++ message], some (Except.ok ())⟩
  | .playbackDone => ⟨s, 0, ["Playback finished"], some (Except.ok ())⟩
  | .captureDone => ⟨s, 0, ["Capture finished"], none⟩

/-- The coordinator's status loop over a trace of received status messages
(`src/main.rs` lines 94-128).  Timeout ticks are no-ops in the source and are
therefore omitted from traces.  Returns the total number of `barrier.wait()`
calls, the log lines, and the loop's return value (`none` when the trace ends
with the loop still running). -/
def coordRun (s : CoordState) : List StatusMessage → Nat × List String × Option (Except String Unit)
  | [] => (0, [], none)
  | m :: ms =>
    let o := coordStep s m
    match o.result with
    | some r => (o.waits, o.logs, some r)
    | none =>
      let t := coordRun o.state ms
      (o.waits + t.1, o.logs ++ t.2.1, t.2.2)

/-- Number of `barrier.wait()` calls the coordinator performs on a trace. -/
def coordWaits (s : CoordState) (msgs : List StatusMessage) : Nat :=
  (coordRun s msgs).1

/-- Number of `PlaybackReady` messages in a trace. -/
def nbrPlaybackReady : List StatusMessage → Nat
  | [] => 0
  | .playbackReady :: ms => nbrPlaybackReady ms + 1
  | _ :: ms => nbrPlaybackReady ms

/-- Number of `CaptureReady` messages in a trace. -/
def nbrCaptureReady : List StatusMessage → Nat
  | [] => 0
  | .captureReady :: ms => nbrCaptureReady ms + 1
  | _ :: ms => nbrCaptureReady ms

lemma coordWaits_cons (s : CoordState) (m : StatusMessage) (ms : List StatusMessage) :
    coordWaits s (m :: ms) =
      (coordStep s m).waits +
        (if (coordStep s m).result.isSome then 0 else coordWaits (coordStep s m).state ms) := by
  cases m <;> simp [coordWaits, coordRun, coordStep]

lemma coordWaits_eq_zero (msgs : List StatusMessage) :
    ∀ s : CoordState, nbrPlaybackReady msgs = 0 → nbrCaptureReady msgs = 0 →
      coordWaits s msgs = 0 := by
  induction msgs with
  | nil => intro s _ _; simp [coordWaits, coordRun]
  | cons m ms ih =>
    intro s hp hc
    cases m with
    | playbackReady => simp [nbrPlaybackReady] at hp
    | captureReady => simp [nbrCaptureReady] at hc
    | playbackError message => simp [coordWaits, coordRun, coordStep]
    | captureError message => simp [coordWaits, coordRun, coordStep]
    | playbackDone => simp [coordWaits, coordRun, coordStep]
    | captureDone =>
      rw [coordWaits_cons]
      simp only [nbrPlaybackReady] at hp
      simp only [nbrCaptureReady] at hc
      simp [coordStep, ih _ hp hc]

lemma coordWaits_le_one (msgs : List StatusMessage) :
    ∀ pb cap : Bool, nbrPlaybackReady msgs ≤ 1 → nbrCaptureReady msgs ≤ 1 →
      (pb = true → nbrPlaybackReady msgs = 0) →
      (cap = true → nbrCaptureReady msgs = 0) →
      coordWaits ⟨pb, cap⟩ msgs ≤ 1 := by
  induction msgs with
  | nil => intro pb cap _ _ _ _; simp [coordWaits, coordRun]
  | cons m ms ih =>
    intro pb cap hp hc hpb hcap
    cases m with
    | playbackReady =>
      simp only [nbrPlaybackReady] at hp hpb
      have hp0 : nbrPlaybackReady ms = 0 := by omega
      rw [coordWaits_cons]
      simp only [coordStep]
      cases cap with
      | true =>
        have hc0 : nbrCaptureReady ms = 0 := by
          have := hcap rfl
          simp only [nbrCaptureReady] at this
          omega
        simp [coordWaits_eq_zero ms _ hp0 hc0]
      | false =>
        have : nbrCaptureReady (StatusMessage.playbackReady :: ms) = nbrCaptureReady ms := by
          simp [nbrCaptureReady]
        rw [this] at hc
        have := ih true false (by omega) hc (fun _ => hp0) (fun h => by cases h)
        simpa using this
    | captureReady =>
      simp only [nbrCaptureReady] at hc hcap
      have hc0 : nbrCaptureReady ms = 0 := by omega
      rw [coordWaits_cons]
      simp only [coordStep]
      cases pb with
      | true =>
        have hp0 : nbrPlaybackReady ms = 0 := by
          have := hpb rfl
          simp only [nbrPlaybackReady] at this
          omega
        simp [coordWaits_eq_zero ms _ hp0 hc0]
      | false =>
        have : nbrPlaybackReady (StatusMessage.captureReady :: ms) = nbrPlaybackReady ms := by
          simp [nbrPlaybackReady]
        rw [this] at hp
        have := ih false true hp (by omega) (fun h => by cases h) (fun _ => hc0)
        simpa using this
    | playbackError message => simp [coordWaits, coordRun, coordStep]
    | captureError message => simp [coordWaits, coordRun, coordStep]
    | playbackDone => simp [coordWaits, coordRun, coordStep]
    | captureDone =>
      rw [coordWaits_cons]
      simp only [nbrPlaybackReady] at hp hpb
      simp only [nbrCaptureReady] at hc hcap
      simpa [coordStep] using ih pb cap hp hc hpb hcap

lemma coordWaits_pos_mem (msgs : List StatusMessage) :
    ∀ pb cap : Bool, 1 ≤ coordWaits ⟨pb, cap⟩ msgs →
      (pb = false → StatusMessage.playbackReady ∈ msgs) ∧
      (cap = false → StatusMessage.captureReady ∈ msgs) := by
  induction msgs with
  | nil => intro pb cap h; simp [coordWaits, coordRun] at h
  | cons m ms ih =>
    intro pb cap h
    rw [coordWaits_cons] at h
    cases m with
    | playbackReady =>
      simp only [coordStep] at h
      constructor
      · intro _; exact List.mem_cons_self _ _
      · intro hcap
        subst hcap
        simp at h
        exact List.mem_cons_of_mem _ ((ih true false h).2 rfl)
    | captureReady =>
      simp only [coordStep] at h
      constructor
      · intro hpb
        subst hpb
        simp at h
        exact List.mem_cons_of_mem _ ((ih false true h).1 rfl)
      · intro _; exact List.mem_cons_self _ _
    | playbackError message => simp [coordStep] at h
    | captureError message => simp [coordStep] at h
    | playbackDone => simp [coordStep] at h
    | captureDone =>
      simp only [coordStep] at h
      simp at h
      have := ih pb cap h
      exact ⟨fun hp => List.mem_cons_of_mem _ (this.1 hp),
             fun hc => List.mem_cons_of_mem _ (this.2 hc)⟩

/-- C7: in the coordinator's status loop, every `barrier.wait()` happens only
after both a `PlaybackReady` and a `CaptureReady` message have been received
(formally: if at least one wait has happened by the end of any prefix of the
trace, both readiness messages lie in that prefix), and — given that each
worker sends its readiness message at most once, as both device workers in
`filedevice.rs` do — `barrier.wait()` is called at most once in the whole run. -/
theorem coordinator_barrier_wait (msgs : List StatusMessage)
    (h1 : nbrPlaybackReady msgs ≤ 1) (h2 : nbrCaptureReady msgs ≤ 1) :
    coordWaits ⟨false, false⟩ msgs ≤ 1 ∧
      ∀ p q : List StatusMessage, msgs = p ++ q →
        1 ≤ coordWaits ⟨false, false⟩ p →
        StatusMessage.playbackReady ∈ p ∧ StatusMessage.captureReady ∈ p := by
  refine ⟨coordWaits_le_one msgs false false h1 h2 (fun h => by cases h) (fun h => by cases h),
          fun p q _ hw => ?_⟩
  have := coordWaits_pos_mem p false false hw
  exact ⟨this.1 rfl, this.2 rfl⟩

/-- Witness for C7 at a concrete trace: ready messages from both workers
followed by `PlaybackDone`. -/
theorem coordinator_barrier_wait_witness :
    nbrPlaybackReady [StatusMessage.playbackReady, StatusMessage.captureReady,
        StatusMessage.playbackDone] ≤ 1 ∧
    nbrCaptureReady [StatusMessage.playbackReady, StatusMessage.captureReady,
        StatusMessage.playbackDone] ≤ 1 ∧
    (coordWaits ⟨false, false⟩ [StatusMessage.playbackReady, StatusMessage.captureReady,
        StatusMessage.playbackDone] ≤ 1 ∧
      ∀ p q : List StatusMessage,
        [StatusMessage.playbackReady, StatusMessage.captureReady,
          StatusMessage.playbackDone] = p ++ q →
        1 ≤ coordWaits ⟨false, false⟩ p →
        StatusMessage.playbackReady ∈ p ∧ StatusMessage.captureReady ∈ p) :=
  ⟨by decide, by decide,
    coordinator_barrier_wait _ (by decide) (by decide)⟩

/-- C1 counterexample: the claim says a `CaptureError` makes `run` return a
non-success result carrying the message; in the source (`main.rs` lines
113-116) the arm prints the message and executes `return Ok(())`, so the loop
returns success.  At the concrete trace `[CaptureError "boom"]` the returned
value is `Except.ok ()` and the message only appears in the log. -/
theorem run_error_returns_ok_cex :
    (coordRun ⟨false, false⟩ [StatusMessage.captureError "boom"]).2.2 =
        some (Except.ok ()) ∧
      (coordRun ⟨false, false⟩ [StatusMessage.captureError "boom"]).2.1 =
        ["Capture error: boom"] := by
  constructor <;> rfl

/-- C1 (amended): receiving `PlaybackDone` makes the status loop return
success; receiving `PlaybackError{message}` or `CaptureError{message}` also
ends the loop immediately, but `run` merely logs the message and returns
success (`Ok(())`) — not a non-success result. -/
theorem run_terminal_messages_return_ok (s : CoordState) (m : String)
    (rest : List StatusMessage) :
    (coordRun s (StatusMessage.playbackDone :: rest)).2.2 = some (Except.ok ()) ∧
    ((coordRun s (StatusMessage.playbackError m :: rest)).2.2 = some (Except.ok ()) ∧
      (coordRun s (StatusMessage.playbackError m :: rest)).2.1 =
        ["Playback error: " ++ m]) ∧
    ((coordRun s (StatusMessage.captureError m :: rest)).2.2 = some (Except.ok ()) ∧
      (coordRun s (StatusMessage.captureError m :: rest)).2.1 =
        ["Capture error: " ++ m]) := by
  refine ⟨rfl, ⟨rfl, rfl⟩, rfl, rfl⟩

/-! ## Playback worker loop (`FilePlaybackDevice::start`, `src/filedevice.rs` lines 119-153) -/

/-- Result of one `channel.recv()` in the playback loop: a received audio
message, or a receive error (the upstream sender was dropped, so the channel
is closed and every further receive fails too). -/
inductive RecvResult where
  | ok (m : AudioMessage)
  | err

/-- Outcome of the `file.write` performed for an audio chunk.  The byte
conversion (`chunk_to_buffer_bytes`, from the external `conversions` module)
and the sink are abstracted into this per-iteration input. -/
inductive WriteResult where
  | wrote (n : Nat)
  | failed (msg : String)

/-- One iteration of the playback loop (`src/filedevice.rs` lines 120-152):
returns the status messages it sends and whether it breaks out of the loop.
An audio chunk is converted and written, a write failure being reported as
`PlaybackError`; `EndOfStream` sends `PlaybackDone` and breaks; a receive
error (`Err(_) => {}` in the source) does nothing. -/
def playback_loop_step (r : RecvResult) (w : WriteResult) : List StatusMessage × Bool :=
  match r with
  | .ok (.audio _) =>
    match w with
    | .wrote _ => ([], false)
    | .failed msg => ([StatusMessage.playbackError msg], false)
  | .ok .endOfStream => ([StatusMessage.playbackDone], true)
  | .err => ([], false)

/-- The playback loop over a finite trace of receive/write outcomes: the
status messages sent, and whether the loop has exited by the end of the
trace. -/
def playback_run : List (RecvResult × WriteResult) → List StatusMessage × Bool
  | [] => ([], false)
  | e :: rest =>
    let o := playback_loop_step e.1 e.2
    if o.2 then o
    else
      let t := playback_run rest
      (o.1 ++ t.1, t.2)

lemma playback_run_all_err (n : Nat) :
    playback_run (List.replicate n (RecvResult.err, WriteResult.wrote 0)) = ([], false) := by
  induction n with
  | zero => rfl
  | succ m ih => simp [List.replicate, playback_run, playback_loop_step, ih]

/-- C2 counterexample: the claim says that once the upstream channel is
closed (every receive fails) the playback worker terminates its loop; in the
source the arm is `Err(_) => {}` (`src/filedevice.rs` line 151), so the loop
never breaks: there is no number of consecutive failed receives after which
the loop has exited. -/
theorem playback_closed_channel_cex :
    ¬ ∃ n : Nat,
        (playback_run (List.replicate n (RecvResult.err, WriteResult.wrote 0))).2 = true := by
  rintro ⟨n, h⟩
  rw [playback_run_all_err n] at h
  simp at h

/-- C2 (amended): when the upstream audio channel is closed, the playback
worker sends no status message, but it does not terminate its loop either:
it ignores every failed receive and keeps looping indefinitely. -/
theorem playback_closed_channel_loops (n : Nat) :
    playback_run (List.replicate n (RecvResult.err, WriteResult.wrote 0)) = ([], false) :=
  playback_run_all_err n

/-! ## Retrying reads (`read_retry`, `src/filedevice.rs` lines 453-471) -/

/-- Behaviour of one `file.read(buf)` call inside `read_retry`.  `deliver k`
means the operating system delivers up to `k + 1` bytes of the remaining file
content this call (fewer only if the buffer or the file runs out) — this
models the nondeterministic short reads; `interrupted` is an
`ErrorKind::Interrupted` failure; `fatal msg` is any other I/O error. -/
inductive ReadEvent where
  | deliver (k : Nat)
  | interrupted
  | fatal (msg : String)
  deriving DecidableEq

/-- Whether a read event is a non-interrupted I/O error. -/
def ReadEvent.isFatal : ReadEvent → Bool
  | .fatal _ => true
  | _ => false

/-- Whether a read event is an interrupted read. -/
def ReadEvent.isInterrupted : ReadEvent → Bool
  | .interrupted => true
  | _ => false

/-- The `while !buf.is_empty()` loop of `read_retry`
(`src/filedevice.rs` lines 455-465), with the unread file content as a byte
list and the read calls scripted by `events`; once the script is exhausted,
each further read delivers as much as buffer and file allow, which closes the
loop in at most two more reads.  Returns the bytes written into the buffer so
far on success (the source's `Ok` value is their count) and the error of the
first non-interrupted failing read otherwise. -/
def read_retry_go (acc file : List Nat) (remaining : Nat) :
    List ReadEvent → Except String (List Nat)
  | [] => Except.ok (acc ++ file.take remaining)
  | e :: rest =>
    if remaining = 0 then Except.ok acc
    else
      match e with
      | .interrupted => read_retry_go acc file remaining rest
      | .fatal msg => Except.error msg
      | .deliver k =>
        let m := min (k + 1) (min remaining file.length)
        if m = 0 then Except.ok acc
        else read_retry_go (acc ++ file.take m) (file.drop m) (remaining - m) rest

/-- `read_retry` (`src/filedevice.rs` lines 453-471) on a buffer of length
`bufLen`, reading from `file` under the read script `events`. -/
def read_retry (file : List Nat) (bufLen : Nat) (events : List ReadEvent) :
    Except String (List Nat) :=
  read_retry_go [] file bufLen events

lemma read_retry_go_zero (acc file : List Nat) (events : List ReadEvent) :
    read_retry_go acc file 0 events = Except.ok acc := by
  cases events <;> simp [read_retry_go]

lemma read_retry_go_no_fatal (events : List ReadEvent) :
    ∀ acc file : List Nat, ∀ remaining : Nat, (∀ e ∈ events, e.isFatal = false) →
      read_retry_go acc file remaining events =
        Except.ok (acc ++ file.take (min remaining file.length)) := by
  induction events with
  | nil =>
    intro acc file remaining _
    simp only [read_retry_go, Except.ok.injEq, List.append_cancel_left_eq]
    rw [List.take_eq_take]
    omega
  | cons e rest ih =>
    intro acc file remaining hnf
    by_cases hr : remaining = 0
    · subst hr
      simp [read_retry_go_zero]
    · cases e with
      | interrupted =>
        rw [show read_retry_go acc file remaining (ReadEvent.interrupted :: rest) =
              read_retry_go acc file remaining rest by
            simp [read_retry_go, hr]]
        exact ih acc file remaining (fun e he => hnf e (List.mem_cons_of_mem _ he))
      | fatal msg =>
        have := hnf (ReadEvent.fatal msg) (List.mem_cons_self _ _)
        simp [ReadEvent.isFatal] at this
      | deliver k =>
        simp only [read_retry_go, if_neg hr]
        by_cases hm : min (k + 1) (min remaining file.length) = 0
        · have hfile : file.length = 0 := by omega
          rw [if_pos hm]
          have : file = [] := List.length_eq_zero.mp hfile
          subst this
          simp
        · rw [if_neg hm]
          rw [ih _ _ _ (fun e he => hnf e (List.mem_cons_of_mem _ he))]
          have hm1 : min (k + 1) (min remaining file.length) ≤ remaining := by omega
          have hm2 : min (k + 1) (min remaining file.length) ≤ file.length := by omega
          simp only [List.append_assoc, Except.ok.injEq, List.append_cancel_left_eq,
            List.length_drop]
          rw [← List.take_add]
          congr 1
          omega

lemma read_retry_go_filter (events : List ReadEvent) :
    ∀ acc file : List Nat, ∀ remaining : Nat,
      read_retry_go acc file remaining
          (events.filter (fun e => !e.isInterrupted)) =
        read_retry_go acc file remaining events := by
  induction events with
  | nil => intro acc file remaining; rfl
  | cons e rest ih =>
    intro acc file remaining
    by_cases hr : remaining = 0
    · subst hr
      rw [read_retry_go_zero, read_retry_go_zero]
    · cases e with
      | interrupted =>
        rw [show ((ReadEvent.interrupted :: rest).filter (fun e => !e.isInterrupted)) =
              rest.filter (fun e => !e.isInterrupted) by
            simp [ReadEvent.isInterrupted]]
        rw [ih acc file remaining]
        simp [read_retry_go, hr]
      | fatal msg =>
        rw [show ((ReadEvent.fatal msg :: rest).filter (fun e => !e.isInterrupted)) =
              ReadEvent.fatal msg :: rest.filter (fun e => !e.isInterrupted) by
            simp [ReadEvent.isInterrupted]]
        simp [read_retry_go, hr]
      | deliver k =>
        rw [show ((ReadEvent.deliver k :: rest).filter (fun e => !e.isInterrupted)) =
              ReadEvent.deliver k :: rest.filter (fun e => !e.isInterrupted) by
            simp [ReadEvent.isInterrupted]]
        simp only [read_retry_go, if_neg hr]
        by_cases hm : min (k + 1) (min remaining file.length) = 0
        · rw [if_pos hm, if_pos hm]
        · rw [if_neg hm, if_neg hm, ih]

lemma read_retry_go_fatal_surfaces (t : Nat) (msg : String) (rest : List ReadEvent) :
    ∀ acc file : List Nat, ∀ remaining : Nat, remaining ≠ 0 →
      read_retry_go acc file remaining
          (List.replicate t ReadEvent.interrupted ++ ReadEvent.fatal msg :: rest) =
        Except.error msg := by
  induction t with
  | zero =>
    intro acc file remaining hr
    simp [read_retry_go, hr]
  | succ u ih =>
    intro acc file remaining hr
    rw [List.replicate_succ, List.cons_append]
    rw [show read_retry_go acc file remaining (ReadEvent.interrupted ::
          (List.replicate u ReadEvent.interrupted ++ ReadEvent.fatal msg :: rest)) =
        read_retry_go acc file remaining
          (List.replicate u ReadEvent.interrupted ++ ReadEvent.fatal msg :: rest) by
        simp [read_retry_go, hr]]
    exact ih acc file remaining hr

/-- C6: `read_retry` on a buffer of length `bufLen` returns `Ok` with the
bytes written into the buffer prefix whenever no non-interrupted error
occurs, and that prefix is the next `min bufLen file.length` bytes of the
file — all of `bufLen` unless end-of-file comes first, accumulated across
arbitrary partial reads; interrupted reads are retried transparently (a read
script with its interrupted events removed gives the same result); and a
non-interrupted error is returned as the result. -/
theorem read_retry_spec (file : List Nat) (bufLen : Nat) (events rest : List ReadEvent)
    (msg : String) (t : Nat) :
    ((∀ e ∈ events, e.isFatal = false) →
        read_retry file bufLen events =
          Except.ok (file.take (min bufLen file.length)) ∧
          (file.take (min bufLen file.length)).length = min bufLen file.length) ∧
      read_retry file bufLen (events.filter (fun e => !e.isInterrupted)) =
        read_retry file bufLen events ∧
      (0 < bufLen →
        read_retry file bufLen
            (List.replicate t ReadEvent.interrupted ++ ReadEvent.fatal msg :: rest) =
          Except.error msg) := by
  refine ⟨fun hnf => ⟨read_retry_go_no_fatal events [] file bufLen hnf, ?_⟩,
    read_retry_go_filter events [] file bufLen,
    fun hb => read_retry_go_fatal_surfaces t msg rest [] file bufLen (by omega)⟩
  simp only [List.length_take]
  omega

/-- Witness for C6 at concrete inputs: a 3-byte file read into a 2-byte
buffer with no scripted events succeeds with the first two bytes; an
interrupted read followed by a fatal one surfaces the fatal error. -/
theorem read_retry_spec_witness :
    read_retry [1, 2, 3] 2 [] = Except.ok [1, 2] ∧
      read_retry [1, 2, 3] 5 [ReadEvent.interrupted, ReadEvent.fatal "boom"] =
        Except.error "boom" := by
  constructor
  · have h := ((read_retry_spec [1, 2, 3] 2 [] [] "x" 0).1 (by simp)).1
    simpa using h
  · have h := (read_retry_spec [1, 2, 3] 5 [] [] "boom" 1).2.2 (by omega)
    simpa [List.replicate] using h

/-! ## Capture loop: silence gate (`capture_loop`, `src/filedevice.rs` lines 304-324) -/

/-- The silence-gate update of `capture_loop` (`src/filedevice.rs` lines
304-315): given the silent-chunk counter and a freshly built chunk, return
the updated counter and whether the chunk passes the gate.  A chunk whose
amplitude span exceeds the threshold resets the counter; otherwise the
counter is incremented, but only when `silent_limit > 0`; the chunk is sent
downstream exactly when the updated counter is at most `silent_limit`. -/
def silence_gate (silence : PrcFmt) (silent_limit silent_nbr : Nat)
    (chunk : AudioChunk) : Nat × Bool :=
  let n := if silence < chunk.maxval - chunk.minval then 0
    else if 0 < silent_limit then silent_nbr + 1
    else silent_nbr
  (n, decide (n ≤ silent_limit))

/-- The silence gate applied along a stream of built chunks, starting from a
given counter: final counter and the per-chunk send decisions. -/
def gateRun (silence : PrcFmt) (silent_limit : Nat) :
    Nat → List AudioChunk → Nat × List Bool
  | nbr, [] => (nbr, [])
  | nbr, c :: cs =>
    let g := silence_gate silence silent_limit nbr c
    let t := gateRun silence silent_limit g.1 cs
    (t.1, g.2 :: t.2)

lemma gateRun_append (silence : PrcFmt) (limit : Nat) (xs : List AudioChunk) :
    ∀ (nbr : Nat) (ys : List AudioChunk),
      gateRun silence limit nbr (xs ++ ys) =
        ((gateRun silence limit (gateRun silence limit nbr xs).1 ys).1,
          (gateRun silence limit nbr xs).2 ++
            (gateRun silence limit (gateRun silence limit nbr xs).1 ys).2) := by
  induction xs with
  | nil => intro nbr ys; simp [gateRun]
  | cons c cs ih => intro nbr ys; simp [gateRun, ih]

lemma count_bool_split (l : List Bool) : l.count true + l.count false = l.length := by
  induction l with
  | nil => simp
  | cons b l ih => cases b <;> simp [List.count_cons, ih] <;> omega

lemma gateRun_silent (silence : PrcFmt) (limit : Nat) (hlim : 0 < limit)
    (cs : List AudioChunk) :
    ∀ nbr : Nat, (∀ c ∈ cs, c.maxval - c.minval ≤ silence) →
      (gateRun silence limit nbr cs).1 = nbr + cs.length ∧
        ((gateRun silence limit nbr cs).2).count true = min (limit - nbr) cs.length ∧
        ((gateRun silence limit nbr cs).2).length = cs.length := by
  induction cs with
  | nil => intro nbr _; simp [gateRun]
  | cons c cs ih =>
    intro nbr hsil
    have hc : ¬ silence < c.maxval - c.minval :=
      not_lt.mpr (hsil c (List.mem_cons_self _ _))
    have ht := ih (nbr + 1) (fun d hd => hsil d (List.mem_cons_of_mem _ hd))
    simp only [gateRun, silence_gate, if_neg hc, if_pos hlim]
    refine ⟨by have h1 := ht.1; simp only [List.length_cons]; omega, ?_,
      by have h3 := ht.2.2; simp only [List.length_cons]; omega⟩
    rw [List.count_cons, ht.2.1]
    by_cases hle : nbr + 1 ≤ limit
    · simp only [decide_eq_true hle, List.length_cons]
      simp
      omega
    · simp only [decide_eq_false hle, List.length_cons]
      simp
      omega

lemma gateRun_zero_limit (silence : PrcFmt) (cs : List AudioChunk) :
    gateRun silence 0 0 cs = (0, List.replicate cs.length true) := by
  induction cs with
  | nil => simp [gateRun]
  | cons c cs ih =>
    simp only [gateRun, silence_gate]
    rw [if_neg (by omega : ¬ 0 < 0)]
    simp [ih, List.replicate_succ]

/-- C3 (amended): starting from silent counter 0, on a stream of `N` chunks
whose amplitude span does not exceed the silence threshold followed by one
whose span exceeds it, the gate sends exactly `min(silent_limit, N)` of the
silent chunks, drops the other `N - min(silent_limit, N)`, and then sends
the loud chunk — provided `silent_limit > 0`.  When `silent_limit = 0` the
counter is never incremented (`src/filedevice.rs` line 309), so the gate is
disabled and every chunk is sent. -/
theorem silence_gate_min_emission (silence : PrcFmt) (limit : Nat)
    (cs : List AudioChunk) (loud : AudioChunk)
    (hcs : ∀ c ∈ cs, c.maxval - c.minval ≤ silence)
    (hloud : silence < loud.maxval - loud.minval) :
    (0 < limit →
      (gateRun silence limit 0 (cs ++ [loud])).2 =
          (gateRun silence limit 0 cs).2 ++ [true] ∧
        ((gateRun silence limit 0 cs).2).count true = min limit cs.length ∧
        ((gateRun silence limit 0 cs).2).count false =
          cs.length - min limit cs.length) ∧
    (limit = 0 →
      (gateRun silence limit 0 (cs ++ [loud])).2 =
        List.replicate (cs.length + 1) true) := by
  constructor
  · intro hlim
    have hmain := gateRun_silent silence limit hlim cs 0 hcs
    have happ := gateRun_append silence limit cs 0 [loud]
    have hloudrun : ∀ k, (gateRun silence limit k [loud]).2 = [true] := by
      intro k
      simp [gateRun, silence_gate, if_pos hloud]
    refine ⟨?_, by simpa using hmain.2.1, ?_⟩
    · rw [happ, hloudrun]
    · have hsum := count_bool_split (gateRun silence limit 0 cs).2
      rw [hmain.2.2] at hsum
      have := hmain.2.1
      omega
  · intro h0
    subst h0
    rw [gateRun_zero_limit]
    simp [List.replicate_succ']

/-- Witness for C3 at a concrete input: threshold 1, limit 1, two silent
chunks followed by a loud one; exactly `min 1 2 = 1` silent chunk passes. -/
theorem silence_gate_min_emission_witness :
    ((gateRun 1 1 0
          ([⟨1, 1, [[0]], 0, 0⟩, ⟨1, 1, [[0]], 0, 0⟩] ++ [⟨1, 1, [[2]], 2, 0⟩])).2 =
        (gateRun 1 1 0 [⟨1, 1, [[0]], 0, 0⟩, ⟨1, 1, [[0]], 0, 0⟩]).2 ++ [true] ∧
      ((gateRun 1 1 0 [⟨1, 1, [[0]], 0, 0⟩, ⟨1, 1, [[0]], 0, 0⟩]).2).count true =
        min 1 [⟨1, 1, [[0]], 0, 0⟩, (⟨1, 1, [[0]], 0, 0⟩ : AudioChunk)].length ∧
      ((gateRun 1 1 0 [⟨1, 1, [[0]], 0, 0⟩, ⟨1, 1, [[0]], 0, 0⟩]).2).count false =
        [⟨1, 1, [[0]], 0, 0⟩, (⟨1, 1, [[0]], 0, 0⟩ : AudioChunk)].length -
          min 1 [⟨1, 1, [[0]], 0, 0⟩, (⟨1, 1, [[0]], 0, 0⟩ : AudioChunk)].length) :=
  (silence_gate_min_emission 1 1 [⟨1, 1, [[0]], 0, 0⟩, ⟨1, 1, [[0]], 0, 0⟩]
      ⟨1, 1, [[2]], 2, 0⟩
      (by intro c hc; fin_cases hc <;> norm_num)
      (by norm_num)).1 (by omega)

/-- C3 counterexample: with `silent_limit = 0` the claim demands that
`min(0, 1) = 0` silent chunks be emitted, but the gate (whose counter is
never incremented when the limit is zero) sends the silent chunk: on one
silent chunk followed by one loud chunk both decisions are `send`. -/
theorem silence_gate_zero_limit_cex :
    (gateRun 1 0 0 [⟨1, 1, [[0]], 0, 0⟩, ⟨1, 1, [[2]], 2, 0⟩]).2 = [true, true] ∧
      min 0 1 = 0 := by
  constructor
  · have := gateRun_zero_limit 1 [⟨1, 1, [[0]], 0, 0⟩, ⟨1, 1, [[2]], 2, 0⟩]
    rw [this]
    rfl
  · rfl

/-! ## Capture loop: short reads (`capture_loop`, `src/filedevice.rs` lines 250-266) -/

/-- The zero-fill loop `for item in buf.iter_mut().take(hi).skip(lo)`
(`src/filedevice.rs` lines 252-254), tracking the index of the list head. -/
def zero_fill_from (lo hi : Nat) : Nat → List Nat → List Nat
  | _, [] => []
  | i, x :: xs => (if lo ≤ i ∧ i < hi then 0 else x) :: zero_fill_from lo hi (i + 1) xs

/-- Zero the buffer bytes at indices in `[lo, hi)`. -/
def zero_fill (buf : List Nat) (lo hi : Nat) : List Nat :=
  zero_fill_from lo hi 0 buf

/-- Result of the short-read handling: the buffer, `bytes_read`, and the
remaining extra-byte reserve. -/
structure ShortReadOut where
  buf : List Nat
  bytes_read : Nat
  extra_bytes_left : Nat
  deriving DecidableEq

/-- The short-read branch of an `Ok(bytes)` read in `capture_loop`
(`src/filedevice.rs` lines 250-266): `bytes_read` starts as `bytes`; when
`0 < bytes < capture_bytes` the region `[bytes, capture_bytes)` is zeroed and
`bytes_read` is topped up from the `extra_bytes_left` reserve — to
`capture_bytes` when the reserve strictly exceeds the shortfall, otherwise by
the whole remaining reserve. -/
def handle_short_read (buf : List Nat) (capture_bytes bytes extra_bytes_left : Nat) :
    ShortReadOut :=
  if 0 < bytes ∧ bytes < capture_bytes then
    let buf2 := zero_fill buf bytes capture_bytes
    let missing := capture_bytes - bytes
    if missing < extra_bytes_left then
      ⟨buf2, capture_bytes, extra_bytes_left - missing⟩
    else
      ⟨buf2, bytes + extra_bytes_left, 0⟩
  else
    ⟨buf, bytes, extra_bytes_left⟩

lemma zero_fill_from_get (lo hi : Nat) (l : List Nat) :
    ∀ j i : Nat,
      (zero_fill_from lo hi j l)[i]? =
        (l[i]?).map (fun x => if lo ≤ j + i ∧ j + i < hi then 0 else x) := by
  induction l with
  | nil => intro j i; simp [zero_fill_from]
  | cons x xs ih =>
    intro j i
    cases i with
    | zero => simp [zero_fill_from]
    | succ n =>
      simp only [zero_fill_from, List.getElem?_cons_succ]
      rw [ih (j + 1) n]
      have : j + 1 + n = j + (n + 1) := by omega
      rw [this]

lemma zero_fill_from_length (lo hi : Nat) (l : List Nat) :
    ∀ j : Nat, (zero_fill_from lo hi j l).length = l.length := by
  induction l with
  | nil => intro j; simp [zero_fill_from]
  | cons x xs ih => intro j; simp [zero_fill_from, ih]

/-- C4: whenever a read returns `bytes` with `0 < bytes < capture_bytes`,
the buffer region `[bytes, capture_bytes)` is zero-filled (the rest is
untouched), `bytes_read` becomes `min(capture_bytes, bytes + extra_bytes_left)`,
the reserve decreases by exactly `bytes_read - bytes`, and in particular
`bytes_read = capture_bytes` whenever the reserve covers the shortfall. -/
theorem short_read_padding (buf : List Nat) (capture_bytes bytes extra : Nat)
    (h1 : 0 < bytes) (h2 : bytes < capture_bytes) :
    (handle_short_read buf capture_bytes bytes extra).bytes_read =
        min capture_bytes (bytes + extra) ∧
      (handle_short_read buf capture_bytes bytes extra).extra_bytes_left =
        extra - ((handle_short_read buf capture_bytes bytes extra).bytes_read - bytes) ∧
      extra - (handle_short_read buf capture_bytes bytes extra).extra_bytes_left =
        (handle_short_read buf capture_bytes bytes extra).bytes_read - bytes ∧
      (capture_bytes - bytes ≤ extra →
        (handle_short_read buf capture_bytes bytes extra).bytes_read = capture_bytes) ∧
      (handle_short_read buf capture_bytes bytes extra).buf.length = buf.length ∧
      (∀ i : Nat, bytes ≤ i → i < capture_bytes → i < buf.length →
        (handle_short_read buf capture_bytes bytes extra).buf[i]? = some 0) ∧
      (∀ i : Nat, i < bytes ∨ capture_bytes ≤ i →
        (handle_short_read buf capture_bytes bytes extra).buf[i]? = buf[i]?) := by
  have hbuf : (handle_short_read buf capture_bytes bytes extra).buf =
      zero_fill buf bytes capture_bytes := by
    rw [handle_short_read, if_pos ⟨h1, h2⟩]
    by_cases hm : capture_bytes - bytes < extra
    · rw [if_pos hm]
    · rw [if_neg hm]
  have harith : (handle_short_read buf capture_bytes bytes extra).bytes_read =
        min capture_bytes (bytes + extra) ∧
      (handle_short_read buf capture_bytes bytes extra).extra_bytes_left =
        extra - (min capture_bytes (bytes + extra) - bytes) := by
    rw [handle_short_read, if_pos ⟨h1, h2⟩]
    by_cases hm : capture_bytes - bytes < extra
    · rw [if_pos hm]
      constructor
      · simp only
        omega
      · simp only
        omega
    · rw [if_neg hm]
      constructor
      · simp only
        omega
      · simp only
        omega
  have hget : ∀ i : Nat, (zero_fill buf bytes capture_bytes)[i]? =
      (buf[i]?).map (fun x => if bytes ≤ i ∧ i < capture_bytes then 0 else x) := by
    intro i
    have := zero_fill_from_get bytes capture_bytes buf 0 i
    simpa using this
  refine ⟨harith.1, ?_, ?_, ?_, ?_, ?_, ?_⟩
  · rw [harith.2, harith.1]
  · rw [harith.2, harith.1]
    omega
  · intro hcover
    rw [harith.1]
    omega
  · rw [hbuf]
    exact zero_fill_from_length bytes capture_bytes buf 0
  · intro i hi1 hi2 hi3
    rw [hbuf, hget i]
    rw [List.getElem?_eq_getElem hi3]
    simp [hi1, hi2]
  · intro i hi
    rw [hbuf, hget i]
    cases hb : buf[i]? with
    | none => simp
    | some x =>
      have : ¬ (bytes ≤ i ∧ i < capture_bytes) := by omega
      simp [this]

/-- Witness for C4 at a concrete input: a 4-byte request answered with 2
bytes and a 1-byte reserve is topped up to `min 4 (2 + 1) = 3` bytes. -/
theorem short_read_padding_witness :
    (handle_short_read [5, 6, 7, 8] 4 2 1).bytes_read = min 4 (2 + 1) :=
  (short_read_padding [5, 6, 7, 8] 4 2 1 (by omega) (by omega)).1

/-! ## Capture loop: end-of-stream flush (`send_silence`, `src/filedevice.rs` lines 431-451) -/

/-- The `while samples_left > 0` loop of `send_silence`
(`src/filedevice.rs` lines 438-450), sending one zero chunk of
`min(chunksize, samples_left)` valid frames per iteration.  The first
argument is iteration fuel: when `0 < chunksize` every iteration consumes at
least one sample, so `samples_left` itself bounds the iteration count and the
fuel never runs out (the lemmas below are proved under that hypothesis; with
`chunksize = 0` the source loop never terminates). -/
def send_silence_go (channels chunksize : Nat) : Nat → Nat → List AudioChunk
  | 0, _ => []
  | _ + 1, 0 => []
  | fuel + 1, m + 1 =>
    AudioChunk.new (List.replicate channels (List.replicate chunksize 0)) 0 0
        (if chunksize < m + 1 then chunksize else m + 1) ::
      send_silence_go channels chunksize fuel
        (m + 1 - (if chunksize < m + 1 then chunksize else m + 1))

/-- `send_silence` (`src/filedevice.rs` lines 431-451): the zero chunks sent
for `samples` trailing samples (the messages go out in list order). -/
def send_silence (samples channels chunksize : Nat) : List AudioChunk :=
  send_silence_go channels chunksize samples samples

lemma send_silence_go_eq (channels chunksize : Nat) (hcs : 0 < chunksize) :
    ∀ fuel n : Nat, n ≤ fuel →
      send_silence_go channels chunksize fuel n =
        (List.replicate (n / chunksize) chunksize ++
            (if n % chunksize = 0 then [] else [n % chunksize])).map
          (fun v =>
            AudioChunk.new (List.replicate channels (List.replicate chunksize 0)) 0 0 v) := by
  intro fuel
  induction fuel with
  | zero =>
    intro n hn
    have hn0 : n = 0 := by omega
    subst hn0
    simp [send_silence_go]
  | succ f ih =>
    intro n hn
    match n with
    | 0 => simp [send_silence_go]
    | m + 1 =>
      simp only [send_silence_go]
      by_cases hlt : chunksize < m + 1
      · rw [if_pos hlt]
        rw [ih (m + 1 - chunksize) (by omega)]
        have hdiv : (m + 1) / chunksize = (m + 1 - chunksize) / chunksize + 1 :=
          Nat.div_eq_sub_div hcs (by omega)
        have hmod : (m + 1) % chunksize = (m + 1 - chunksize) % chunksize :=
          Nat.mod_eq_sub_mod (by omega)
        rw [hdiv, hmod, List.replicate_succ, List.cons_append, List.map_cons]
      · rw [if_neg hlt]
        have h0 : m + 1 - (m + 1) = 0 := by omega
        rw [h0]
        have hgo0 : send_silence_go channels chunksize f 0 = [] := by
          cases f <;> simp [send_silence_go]
        rw [hgo0]
        by_cases heq : m + 1 = chunksize
        · subst heq
          simp [Nat.div_self (Nat.succ_pos m), Nat.mod_self]
        · have hm : m + 1 < chunksize := by omega
          rw [Nat.div_eq_of_lt hm, Nat.mod_eq_of_lt hm]
          have hne : m + 1 ≠ 0 := by omega
          simp [hne]

lemma silence_chunk_count (a cs : Nat) (h : 0 < cs) :
    a / cs + (if a % cs = 0 then 0 else 1) = (a + cs - 1) / cs := by
  by_cases hr : a % cs = 0
  · rw [if_pos hr]
    have hsplit : a + cs - 1 = cs * (a / cs) + (cs - 1) := by
      have := Nat.div_add_mod a cs
      omega
    rw [Nat.add_zero, hsplit, Nat.mul_add_div h]
    rw [Nat.div_eq_of_lt (by omega : cs - 1 < cs)]
    omega
  · rw [if_neg hr]
    have hmlt : a % cs < cs := Nat.mod_lt a h
    have hsplit : a + cs - 1 = cs * (a / cs + 1) + (a % cs - 1) := by
      have := Nat.div_add_mod a cs
      have : cs * (a / cs + 1) = cs * (a / cs) + cs := by ring
      omega
    rw [hsplit, Nat.mul_add_div h]
    rw [Nat.div_eq_of_lt (by omega : a % cs - 1 < cs)]

/-! ## One iteration of the capture loop (`capture_loop`, `src/filedevice.rs` lines 220-325) -/

/-- The configuration fields of `CaptureParams` (`src/filedevice.rs` lines
58-68) that the modelled loop body reads.  `bits`, `format`, `extra_bytes`
and `buffer_bytes` only feed the initial state and the abstracted
`build_chunk` conversion, so they do not reappear here. -/
structure CaptureParams where
  channels : Nat
  store_bytes : Nat
  silent_limit : Nat
  silence : PrcFmt
  chunksize : Nat

/-- The mutable locals of `capture_loop` (`src/filedevice.rs` lines 214-219)
that survive from one iteration to the next. -/
structure CaptureState where
  buf : List Nat
  bytes_read : Nat
  capture_bytes : Nat
  extra_bytes_left : Nat
  silent_nbr : Nat

/-- Result of the `read_retry` call of an iteration: the byte count together
with the buffer contents after the read wrote into it, or a non-interrupted
I/O error. -/
inductive CaptureReadResult where
  | ok (bytes : Nat) (newBuf : List Nat)
  | err (msg : String)

/-- Output of one capture-loop iteration: the next state, the audio and
status messages sent (in order), and whether the loop `break`s. -/
structure CaptureIterOut where
  state : CaptureState
  audio : List AudioMessage
  status : List StatusMessage
  done : Bool

/-- The shared tail of a capture-loop iteration
(`src/filedevice.rs` lines 296-324, with `resampler = None`): build the
chunk from the buffer region `[0, capture_bytes)` and the current
`bytes_read`, run the silence gate, and send the chunk downstream when it
passes.  `status` carries the status messages sent earlier in the
iteration. -/
def capture_chunk_send (p : CaptureParams) (buildChunk : List Nat → Nat → AudioChunk)
    (s : CaptureState) (status : List StatusMessage) : CaptureIterOut :=
  let chunk := buildChunk (s.buf.take s.capture_bytes) s.bytes_read
  let g := silence_gate p.silence p.silent_limit s.silent_nbr chunk
  ⟨{ s with silent_nbr := g.1 },
    if g.2 then [AudioMessage.audio chunk] else [], status, false⟩

/-- One iteration of `capture_loop` (`src/filedevice.rs` lines 220-325) with
no resampler configured (`resampler = None`: `get_nbr_capture_bytes` then
returns `capture_bytes` unchanged, `SetSpeed` does nothing, and no
resampling happens before a send).  `buildChunk` abstracts `build_chunk`
(lines 188-204), whose byte-to-sample conversion lives in the external
`conversions` module: it receives exactly what the source passes it — the
buffer region `buf[0..capture_bytes]` and `bytes_read`.  `command` is the
`try_recv` poll result and `read` the `read_retry` result of this
iteration. -/
def capture_iteration (p : CaptureParams) (buildChunk : List Nat → Nat → AudioChunk)
    (command : Option CommandMessage) (read : CaptureReadResult)
    (s : CaptureState) : CaptureIterOut :=
  match command with
  | some CommandMessage.exit =>
      ⟨s, [AudioMessage.endOfStream], [StatusMessage.captureDone], true⟩
  | _ =>
    match read with
    | .ok bytes newBuf =>
      if bytes = 0 then
        ⟨{ s with buf := newBuf, bytes_read := 0 },
          (send_silence (s.extra_bytes_left / p.store_bytes / p.channels)
              p.channels p.chunksize).map AudioMessage.audio ++
            [AudioMessage.endOfStream],
          [StatusMessage.captureDone], true⟩
      else
        let r := handle_short_read newBuf s.capture_bytes bytes s.extra_bytes_left
        capture_chunk_send p buildChunk
          { s with buf := r.buf, bytes_read := r.bytes_read,
                   extra_bytes_left := r.extra_bytes_left } []
    | .err msg =>
      capture_chunk_send p buildChunk s [StatusMessage.captureError msg]

/-- C5: on a zero-byte read, the iteration sends exactly
`ceil(s / chunksize)` silence chunks (with
`s = extra_bytes_left / (store_bytes * channels)`; none when `s = 0`), each
made of `channels` zero waveforms of length `chunksize` with
`minval = maxval = 0`, whose `valid_frames` are `chunksize` on all but
possibly the last chunk (the remainder there) and sum to `s`; then it sends
`EndOfStream`, sends `CaptureDone`, and breaks out of the loop. -/
theorem capture_eof_flush (p : CaptureParams) (buildChunk : List Nat → Nat → AudioChunk)
    (s : CaptureState) (newBuf : List Nat) (hcs : 0 < p.chunksize) :
    (capture_iteration p buildChunk none (CaptureReadResult.ok 0 newBuf) s).audio =
        (send_silence (s.extra_bytes_left / (p.store_bytes * p.channels)) p.channels
              p.chunksize).map AudioMessage.audio ++ [AudioMessage.endOfStream] ∧
      (capture_iteration p buildChunk none (CaptureReadResult.ok 0 newBuf) s).status =
        [StatusMessage.captureDone] ∧
      (capture_iteration p buildChunk none (CaptureReadResult.ok 0 newBuf) s).done = true ∧
      (send_silence (s.extra_bytes_left / (p.store_bytes * p.channels)) p.channels
            p.chunksize).length =
        (s.extra_bytes_left / (p.store_bytes * p.channels) + p.chunksize - 1) /
          p.chunksize ∧
      (send_silence (s.extra_bytes_left / (p.store_bytes * p.channels)) p.channels
            p.chunksize).map AudioChunk.valid_frames =
        List.replicate (s.extra_bytes_left / (p.store_bytes * p.channels) / p.chunksize)
            p.chunksize ++
          (if s.extra_bytes_left / (p.store_bytes * p.channels) % p.chunksize = 0 then []
            else [s.extra_bytes_left / (p.store_bytes * p.channels) % p.chunksize]) ∧
      ((send_silence (s.extra_bytes_left / (p.store_bytes * p.channels)) p.channels
              p.chunksize).map AudioChunk.valid_frames).sum =
        s.extra_bytes_left / (p.store_bytes * p.channels) ∧
      ∀ c ∈ send_silence (s.extra_bytes_left / (p.store_bytes * p.channels)) p.channels
          p.chunksize,
        c.waveforms = List.replicate p.channels (List.replicate p.chunksize (0 : PrcFmt)) ∧
          c.minval = 0 ∧ c.maxval = 0 := by
  have hdd : s.extra_bytes_left / p.store_bytes / p.channels =
      s.extra_bytes_left / (p.store_bytes * p.channels) :=
    Nat.div_div_eq_div_mul _ _ _
  set a := s.extra_bytes_left / (p.store_bytes * p.channels) with ha
  have hss : send_silence a p.channels p.chunksize =
      (List.replicate (a / p.chunksize) p.chunksize ++
          (if a % p.chunksize = 0 then [] else [a % p.chunksize])).map
        (fun v =>
          AudioChunk.new (List.replicate p.channels (List.replicate p.chunksize 0)) 0 0 v) := by
    unfold send_silence
    exact send_silence_go_eq p.channels p.chunksize hcs a a le_rfl
  have hvalid : (send_silence a p.channels p.chunksize).map AudioChunk.valid_frames =
      List.replicate (a / p.chunksize) p.chunksize ++
        (if a % p.chunksize = 0 then [] else [a % p.chunksize]) := by
    rw [hss, List.map_map]
    have hcomp : (AudioChunk.valid_frames ∘ fun v =>
        AudioChunk.new (List.replicate p.channels (List.replicate p.chunksize 0)) 0 0 v) =
          id := by
      funext v
      rfl
    rw [hcomp, List.map_id]
  refine ⟨?_, rfl, rfl, ?_, hvalid, ?_, ?_⟩
  · have hr : (capture_iteration p buildChunk none (CaptureReadResult.ok 0 newBuf) s).audio =
        (send_silence (s.extra_bytes_left / p.store_bytes / p.channels) p.channels
            p.chunksize).map AudioMessage.audio ++ [AudioMessage.endOfStream] := rfl
    rw [hr, hdd]
  · rw [hss]
    simp only [List.length_map, List.length_append, List.length_replicate]
    rw [← silence_chunk_count a p.chunksize hcs]
    by_cases hrr : a % p.chunksize = 0 <;> simp [hrr]
  · rw [hvalid]
    have h2 := Nat.div_add_mod' a p.chunksize
    by_cases hrr : a % p.chunksize = 0
    · rw [hrr, Nat.add_zero] at h2
      simp [hrr, List.sum_replicate, smul_eq_mul, h2]
    · have hx : (if a % p.chunksize = 0 then ([] : List Nat)
          else [a % p.chunksize]) = [a % p.chunksize] := if_neg hrr
      rw [hx, List.sum_append, List.sum_replicate, smul_eq_mul]
      simp only [List.sum_cons, List.sum_nil, Nat.add_zero]
      exact h2
  · rw [hss]
    intro c hc
    simp only [List.mem_map] at hc
    obtain ⟨v, hv, rfl⟩ := hc
    exact ⟨rfl, rfl, rfl⟩

/-- Witness for C5 at a concrete input: one channel, 2-byte samples, chunk
size 4, a reserve of 20 bytes (10 trailing samples, flushed as chunks of
4, 4 and 2 valid frames). -/
theorem capture_eof_flush_witness :
    (capture_iteration ⟨1, 2, 0, 0, 4⟩ (fun _ _ => AudioChunk.new [] 0 0 0) none
        (CaptureReadResult.ok 0 []) ⟨[], 0, 0, 20, 0⟩).status =
      [StatusMessage.captureDone] :=
  (capture_eof_flush ⟨1, 2, 0, 0, 4⟩ (fun _ _ => AudioChunk.new [] 0 0 0)
      ⟨[], 0, 0, 20, 0⟩ [] (by decide)).2.1

/-- A filter's in-place waveform transform (`Filter::process_waveform`,
`src/filters.rs` lines 15-18).  The concrete filters (gain, delay, biquad,
FFT convolution) sit behind the `dyn Filter` trait object, so a filter is
modelled by the transformation it applies to a waveform, fallible as in the
source. -/
abbrev FilterFn := List PrcFmt → Except String (List PrcFmt)

/-- Model of `FilterGroup` (`src/filters.rs` lines 31-34): a channel index
and the owned filters in declared order. -/
structure FilterGroup where
  channel : Nat
  filters : List FilterFn

/-- The `for filter in &mut self.filters` loop of `FilterGroup::process_chunk`
(`src/filters.rs` lines 72-74) on one waveform: apply each filter in declared
order, stopping at the first error (the `?` operator). -/
def applyFilters : List FilterFn → List PrcFmt → Except String (List PrcFmt)
  | [], w => Except.ok w
  | f :: fs, w =>
    match f w with
    | Except.error e => Except.error e
    | Except.ok w2 => applyFilters fs w2

/-- The `for filter in &mut self.filters` loop of `FilterGroup::process_chunk`
(`src/filters.rs` lines 72-74), one iteration per filter.  The indexing
`input.waveforms[self.channel]` sits inside the loop body, so the bounds are
checked anew each iteration and a group with no filters never indexes at
all; the out-of-range panic of the indexing is the `none` branch of this
total embedding, and the `?` operator stops at the first filter error. -/
def FilterGroup.process_loop (channel : Nat) :
    List FilterFn → AudioChunk → Option (Except String AudioChunk)
  | [], input => some (Except.ok input)
  | f :: fs, input =>
    if h : channel < input.waveforms.length then
      match f input.waveforms[channel] with
      | Except.error e => some (Except.error e)
      | Except.ok w =>
          FilterGroup.process_loop channel fs
            { input with waveforms := input.waveforms.set channel w }
    else
      none

/-- `FilterGroup::process_chunk` (`src/filters.rs` lines 71-77): run the
group's filters, in declared order, over `input.waveforms[self.channel]` in
place. -/
def FilterGroup.process_chunk (fg : FilterGroup) (input : AudioChunk) :
    Option (Except String AudioChunk) :=
  FilterGroup.process_loop fg.channel fg.filters input

lemma set_getD_self (l : List (List PrcFmt)) (i : Nat) (h : i < l.length) :
    l.set i (l.getD i []) = l := by
  apply List.ext_getElem?
  intro j
  by_cases hij : i = j
  · subst hij
    rw [List.getElem?_set_eq_of_lt _ h, List.getElem?_eq_getElem h,
      List.getD_eq_getElem?_getD, List.getElem?_eq_getElem h]
    rfl
  · exact List.getElem?_set_ne hij

lemma process_loop_eq (channel : Nat) (filters : List FilterFn) :
    ∀ input : AudioChunk, channel < input.waveforms.length →
      FilterGroup.process_loop channel filters input =
        (match applyFilters filters (input.waveforms.getD channel []) with
          | Except.error e => some (Except.error e)
          | Except.ok w =>
              some (Except.ok
                { input with waveforms := input.waveforms.set channel w })) := by
  induction filters with
  | nil =>
    intro input h
    show some (Except.ok input) = _
    simp only [applyFilters]
    rw [set_getD_self input.waveforms channel h]
  | cons f fs ih =>
    intro input h
    have hg : input.waveforms.getD channel [] = input.waveforms[channel] := by
      rw [List.getD_eq_getElem?_getD, List.getElem?_eq_getElem h]
      rfl
    simp only [FilterGroup.process_loop, dif_pos h, applyFilters, hg]
    cases hf : f input.waveforms[channel] with
    | error e => rfl
    | ok w =>
      show FilterGroup.process_loop channel fs
          { input with waveforms := input.waveforms.set channel w } =
        (match applyFilters fs w with
          | Except.error e => some (Except.error e)
          | Except.ok w2 =>
              some (Except.ok
                { input with waveforms := input.waveforms.set channel w2 }))
      have h2 : channel <
          ({ input with waveforms := input.waveforms.set channel w } :
            AudioChunk).waveforms.length := by
        simpa using h
      rw [ih _ h2]
      have hg2 : ({ input with waveforms := input.waveforms.set channel w } :
          AudioChunk).waveforms.getD channel [] = w := by
        show (input.waveforms.set channel w).getD channel [] = w
        rw [List.getD_eq_getElem?_getD, List.getElem?_set_eq_of_lt w h]
        rfl
      rw [hg2]
      cases happ : applyFilters fs w with
      | error e => rfl
      | ok w2 => simp [List.set_set]

/-- C8: when the chunk has more waveforms than the group's channel index and
`process_chunk` returns normally, the filters have been applied, in declared
order, to the waveform at the group's channel only: every other waveform and
the chunk's `frames` and `valid_frames` (and extreme values) are unchanged. -/
theorem filtergroup_only_declared_channel (fg : FilterGroup) (input : AudioChunk)
    (h : fg.channel < input.waveforms.length) (out : AudioChunk)
    (hout : fg.process_chunk input = some (Except.ok out)) :
    out.frames = input.frames ∧
      out.valid_frames = input.valid_frames ∧
      out.minval = input.minval ∧
      out.maxval = input.maxval ∧
      out.waveforms.length = input.waveforms.length ∧
      (∀ j : Nat, j ≠ fg.channel → out.waveforms[j]? = input.waveforms[j]?) ∧
      applyFilters fg.filters (input.waveforms.getD fg.channel []) =
        Except.ok (out.waveforms.getD fg.channel []) := by
  rw [FilterGroup.process_chunk, process_loop_eq fg.channel fg.filters input h] at hout
  cases happ : applyFilters fg.filters (input.waveforms.getD fg.channel []) with
  | error e =>
    rw [happ] at hout
    simp at hout
  | ok w =>
    rw [happ] at hout
    simp only [Option.some.injEq, Except.ok.injEq] at hout
    subst hout
    refine ⟨rfl, rfl, rfl, rfl, by simp, fun j hj => List.getElem?_set_ne (Ne.symm hj), ?_⟩
    have hB : (input.waveforms.set fg.channel w).getD fg.channel [] = w := by
      rw [List.getD_eq_getElem?_getD, List.getElem?_set_eq_of_lt w h]
      rfl
    show Except.ok w =
      Except.ok ((input.waveforms.set fg.channel w).getD fg.channel [])
    rw [hB]

/-- Witness for C8 at a concrete input: a group on channel 0 holding one
identity filter, applied to a one-channel chunk. -/
theorem filtergroup_only_declared_channel_witness :
    (⟨1, 1, [[1]], 1, 1⟩ : AudioChunk).frames =
        (⟨1, 1, [[1]], 1, 1⟩ : AudioChunk).frames ∧
      (⟨1, 1, [[1]], 1, 1⟩ : AudioChunk).valid_frames =
        (⟨1, 1, [[1]], 1, 1⟩ : AudioChunk).valid_frames ∧
      (⟨1, 1, [[1]], 1, 1⟩ : AudioChunk).minval =
        (⟨1, 1, [[1]], 1, 1⟩ : AudioChunk).minval ∧
      (⟨1, 1, [[1]], 1, 1⟩ : AudioChunk).maxval =
        (⟨1, 1, [[1]], 1, 1⟩ : AudioChunk).maxval ∧
      (⟨1, 1, [[1]], 1, 1⟩ : AudioChunk).waveforms.length =
        (⟨1, 1, [[1]], 1, 1⟩ : AudioChunk).waveforms.length ∧
      (∀ j : Nat, j ≠ (⟨0, [fun w => Except.ok w]⟩ : FilterGroup).channel →
        (⟨1, 1, [[1]], 1, 1⟩ : AudioChunk).waveforms[j]? =
          (⟨1, 1, [[1]], 1, 1⟩ : AudioChunk).waveforms[j]?) ∧
      applyFilters (⟨0, [fun w => Except.ok w]⟩ : FilterGroup).filters
          ((⟨1, 1, [[1]], 1, 1⟩ : AudioChunk).waveforms.getD
            (⟨0, [fun w => Except.ok w]⟩ : FilterGroup).channel []) =
        Except.ok ((⟨1, 1, [[1]], 1, 1⟩ : AudioChunk).waveforms.getD
          (⟨0, [fun w => Except.ok w]⟩ : FilterGroup).channel []) :=
  filtergroup_only_declared_channel ⟨0, [fun w => Except.ok w]⟩ ⟨1, 1, [[1]], 1, 1⟩
    (by decide) ⟨1, 1, [[1]], 1, 1⟩ rfl

/-- C10 counterexample: the claim says that for any chunk with
`waveforms.len() ≤ channel` the operation cannot return normally; but the
indexing sits inside the per-filter loop (`src/filters.rs` lines 72-74), so
a group with an empty filter list never indexes: on channel 2 over a
one-waveform chunk it returns `Ok(())` with the chunk untouched. -/
theorem filtergroup_empty_group_cex :
    FilterGroup.process_chunk ⟨2, []⟩ ⟨1, 1, [[1]], 1, 1⟩ =
        some (Except.ok ⟨1, 1, [[1]], 1, 1⟩) ∧
      (⟨1, 1, [[1]], 1, 1⟩ : AudioChunk).waveforms.length ≤ 2 :=
  ⟨rfl, by decide⟩

/-- C10 (amended): `FilterGroup::process_chunk` indexes
`input.waveforms[self.channel]` without a bounds check inside the per-filter
loop: under the precondition `channel < waveforms.len()` the out-of-bounds
branch of the total embedding is unreachable (the operation returns), and
for any chunk with `waveforms.len() ≤ channel` the access of the first
filter iteration is out of bounds and the operation cannot return normally
(the `none` branch) — provided the group has at least one filter; a group
with an empty filter list performs no indexing and returns normally with the
chunk unchanged even when the channel is out of range. -/
theorem filtergroup_channel_bounds (fg : FilterGroup) (input : AudioChunk) :
    (fg.channel < input.waveforms.length →
        (fg.process_chunk input).isSome = true) ∧
      (input.waveforms.length ≤ fg.channel → fg.filters ≠ [] →
        fg.process_chunk input = none) ∧
      (fg.filters = [] → fg.process_chunk input = some (Except.ok input)) := by
  refine ⟨?_, ?_, ?_⟩
  · intro h
    rw [FilterGroup.process_chunk, process_loop_eq fg.channel fg.filters input h]
    cases happ : applyFilters fg.filters (input.waveforms.getD fg.channel []) <;>
      simp [happ]
  · intro h hne
    cases hf : fg.filters with
    | nil => exact absurd hf hne
    | cons f fs =>
      rw [FilterGroup.process_chunk, hf]
      simp only [FilterGroup.process_loop]
      rw [dif_neg (by omega : ¬ fg.channel < input.waveforms.length)]
  · intro hf
    rw [FilterGroup.process_chunk, hf]
    rfl

/-- Witness for C10 at concrete inputs: on a one-waveform chunk, a group on
channel 0 returns; a group on channel 2 holding one filter hits the
out-of-bounds branch; a filterless group on channel 2 returns the chunk
unchanged. -/
theorem filtergroup_channel_bounds_witness :
    (FilterGroup.process_chunk ⟨0, []⟩ ⟨1, 1, [[1]], 1, 1⟩).isSome = true ∧
      FilterGroup.process_chunk ⟨2, [fun w => Except.ok w]⟩ ⟨1, 1, [[1]], 1, 1⟩ =
        none ∧
      FilterGroup.process_chunk ⟨2, []⟩ ⟨1, 1, [[1]], 1, 1⟩ =
        some (Except.ok ⟨1, 1, [[1]], 1, 1⟩) :=
  ⟨(filtergroup_channel_bounds ⟨0, []⟩ ⟨1, 1, [[1]], 1, 1⟩).1 (by decide),
    (filtergroup_channel_bounds ⟨2, [fun w => Except.ok w]⟩
        ⟨1, 1, [[1]], 1, 1⟩).2.1 (by decide) (by simp),
    (filtergroup_channel_bounds ⟨2, []⟩ ⟨1, 1, [[1]], 1, 1⟩).2.2 rfl⟩
